import Mathlib

/-!
Verification of the Rustoku sudoku library against its specification.

The development shallowly embeds `src/sudoku_board.rs` and
`src/sudoku_solver.rs`: the 9×9 grid of `u8` digits becomes a function
`Fin 9 → Fin 9 → Nat`, the `&mut self` mutation `SudokuBoard::set` becomes a
state-passing function returning a `SetResult` (with an explicit `panic`
outcome for the out-of-bounds array indexing the Rust code performs), and the
recursive backtracking solver becomes a fuel-indexed recursion whose fuel is
shown to be irrelevant above the number of empty cells.

The solver methods `SudokuBoard::is_placement_valid` and the internal
unchecked mutation entry point are called from `sudoku_solver.rs` but are not
present in `sudoku_board.rs`; they are modelled from the specification
(see their doc comments).
-/

set_option maxRecDepth 8000

/-- The 9×9 grid of digits: `board: [[u8; 9]; 9]` in the source. `0` = empty. -/
abbrev Grid := Fin 9 → Fin 9 → Nat

/-- Build a grid from a list-of-rows literal; missing entries default to `0`.
Used only to transcribe the concrete test boards of the repository. -/
def l2g (l : List (List Nat)) : Grid := fun r c => (l.getD r.val []).getD c.val 0

/-- Embeds `struct SudokuBoard { board: [[u8; 9]; 9], initial_mask: [[bool; 9]; 9] }`. -/
structure SudokuBoard where
  board : Grid
  initial_mask : Fin 9 → Fin 9 → Bool

/-- Pointwise boolean comparison of boards (kernel-reducible, unlike the
generic decidable equality on function types). -/
def SudokuBoard.beq (a b : SudokuBoard) : Bool :=
  (List.finRange 9).all fun r => (List.finRange 9).all fun c =>
    (a.board r c == b.board r c) && (a.initial_mask r c == b.initial_mask r c)

theorem boardBeq_iff (a b : SudokuBoard) : SudokuBoard.beq a b = true ↔ a = b := by
  cases a with
  | mk ab am =>
    cases b with
    | mk bb bm =>
      simp only [SudokuBoard.beq, List.all_eq_true, List.mem_finRange, Bool.and_eq_true,
        beq_iff_eq, true_implies, SudokuBoard.mk.injEq]
      constructor
      · intro h
        exact ⟨funext fun r => funext fun c => (h r c).1, funext fun r => funext fun c => (h r c).2⟩
      · rintro ⟨h1, h2⟩ r c
        exact ⟨congrFun (congrFun h1 r) c, congrFun (congrFun h2 r) c⟩

instance : DecidableEq SudokuBoard := fun a b =>
  if h : SudokuBoard.beq a b = true then
    isTrue ((boardBeq_iff a b).mp h)
  else
    isFalse (fun he => h ((boardBeq_iff a b).mpr he))

/-- Point update of a grid: the effect of writing `board[r][c] = num`. -/
def updateCell (g : Grid) (cell : Fin 9 × Fin 9) (num : Nat) : Grid :=
  fun r c => if (r, c) = cell then num else g r c

/-- Two cells share a row, a column, or a 3×3 block. -/
def sameUnit (p q : Fin 9 × Fin 9) : Prop :=
  p.1 = q.1 ∨ p.2 = q.2 ∨ (p.1.val / 3 = q.1.val / 3 ∧ p.2.val / 3 = q.2.val / 3)

instance (p q : Fin 9 × Fin 9) : Decidable (sameUnit p q) := by
  unfold sameUnit; infer_instance

/-- Invariant I2 of the spec: in every row, column and 3×3 block the non-zero
values are pairwise distinct. -/
def I2 (g : Grid) : Prop :=
  ∀ p q : Fin 9 × Fin 9, p ≠ q → sameUnit p q →
    g p.1 p.2 ≠ 0 → g q.1 q.2 ≠ 0 → g p.1 p.2 ≠ g q.1 q.2

instance (g : Grid) : Decidable (I2 g) := by
  unfold I2; infer_instance

/-- A grid with no empty (zero) cells. -/
def Complete (g : Grid) : Prop := ∀ r c, g r c ≠ 0

instance (g : Grid) : Decidable (Complete g) := by
  unfold Complete; infer_instance

/-- `g'` agrees with `g` on every non-zero cell of `g`. -/
def Extends (g g' : Grid) : Prop := ∀ r c, g r c ≠ 0 → g' r c = g r c

instance (g g' : Grid) : Decidable (Extends g g') := by
  unfold Extends; infer_instance

/-- `g'` is an assignment of digits 1..9 to the initially empty cells of `g`:
it keeps every non-zero cell of `g` and fills every zero cell with 1..9. -/
def Completion (g g' : Grid) : Prop :=
  Extends g g' ∧ ∀ r c, g r c = 0 → 1 ≤ g' r c ∧ g' r c ≤ 9

/-- Result of `SudokuBoard::set`. The Rust method takes `&mut self`; the
embedding returns the post-call board in the `err`/`ok` payload (an `Err`
return in the source happens before any write, so `err` carries the board
unchanged). `panic` records an index-out-of-bounds panic. -/
inductive SetResult where
  | panic : SetResult
  | err (msg : String) (after : SudokuBoard) : SetResult
  | ok (after : SudokuBoard) : SetResult

/-- Kernel-reducible boolean comparison of `SetResult`s. -/
def SetResult.beq : SetResult → SetResult → Bool
  | SetResult.panic, SetResult.panic => true
  | SetResult.err m a, SetResult.err m' a' => (m == m') && SudokuBoard.beq a a'
  | SetResult.ok a, SetResult.ok a' => SudokuBoard.beq a a'
  | _, _ => false

theorem setResultBeq_iff (x y : SetResult) : SetResult.beq x y = true ↔ x = y := by
  cases x <;> cases y <;>
    simp [SetResult.beq, boardBeq_iff]

instance : DecidableEq SetResult := fun x y =>
  if h : SetResult.beq x y = true then
    isTrue ((setResultBeq_iff x y).mp h)
  else
    isFalse (fun he => h ((setResultBeq_iff x y).mpr he))

/-- Kernel-reducible boolean comparison of optional boards. -/
def optBoardBeq : Option SudokuBoard → Option SudokuBoard → Bool
  | none, none => true
  | some a, some b => SudokuBoard.beq a b
  | _, _ => false

theorem optBoardBeq_iff (x y : Option SudokuBoard) : optBoardBeq x y = true ↔ x = y := by
  cases x <;> cases y <;> simp [optBoardBeq, boardBeq_iff]

instance : DecidableEq (Option SudokuBoard) := fun x y =>
  if h : optBoardBeq x y = true then
    isTrue ((optBoardBeq_iff x y).mp h)
  else
    isFalse (fun he => h ((optBoardBeq_iff x y).mpr he))

/-- Embeds the seen-set loop body of `SudokuBoard::is_valid_config`: walk the
values of one row/column/block, tracking the non-zero values already seen
(`HashSet::insert` returning `false` becomes a membership test), and report
`false` on the first repeated non-zero value. -/
def lineOk : List Nat → List Nat → Bool
  | _, [] => true
  | seen, v :: rest =>
    if v ≠ 0 ∧ v ∈ seen then false
    else lineOk (if v ≠ 0 then v :: seen else seen) rest

/-- The cells of row `r`, in column order. -/
def rowCells (r : Fin 9) : List (Fin 9 × Fin 9) :=
  (List.finRange 9).map (fun c => (r, c))

/-- The cells of column `c`, in row order. -/
def colCells (c : Fin 9) : List (Fin 9 × Fin 9) :=
  (List.finRange 9).map (fun r => (r, c))

/-- The cells of the 3×3 block with block coordinates `(bi, bj)`, row-major,
mirroring the `box_row..box_row + 3` loops of the source. -/
def boxCells (bi bj : Fin 3) : List (Fin 9 × Fin 9) :=
  (List.finRange 3).flatMap (fun oi => (List.finRange 3).map (fun oj =>
    (⟨bi.val * 3 + oi.val, by have := bi.isLt; have := oi.isLt; omega⟩,
     ⟨bj.val * 3 + oj.val, by have := bj.isLt; have := oj.isLt; omega⟩)))

/-- The values a line of cells holds in grid `g`. -/
def lineVals (g : Grid) (cs : List (Fin 9 × Fin 9)) : List Nat :=
  cs.map (fun p => g p.1 p.2)

/-- Embeds `SudokuBoard::is_valid_config`: every row, column and 3×3 block is
scanned with a fresh seen-set; any repeated non-zero value makes the whole
check `false`. The source interleaves the row and column scans in one loop
and returns early; the resulting boolean is the same conjunction. -/
def SudokuBoard.is_valid_config (config : Grid) : Bool :=
  ((List.finRange 9).all fun i => lineOk [] (lineVals config (rowCells i))) &&
  ((List.finRange 9).all fun j => lineOk [] (lineVals config (colCells j))) &&
  ((List.finRange 3).all fun bi => (List.finRange 3).all fun bj =>
    lineOk [] (lineVals config (boxCells bi bj)))

/-- Embeds `SudokuBoard::from` (named `fromConfig` because `from` is a Lean
keyword): reject configs failing `is_valid_config`, otherwise set
`initial_mask[r][c]` exactly where `config[r][c] != 0`. -/
def SudokuBoard.fromConfig (config : Grid) : Except String SudokuBoard :=
  if SudokuBoard.is_valid_config config then
    Except.ok ⟨config, fun r c => config r c != 0⟩
  else
    Except.error "Error: Invalid config used in SudokuBoard::from()."

/-- Embeds `SudokuBoard::get`: bounds-checked read, `None` out of bounds. -/
def SudokuBoard.get (b : SudokuBoard) (cell : Nat × Nat) : Option Nat :=
  if h : cell.1 < 9 ∧ cell.2 < 9 then
    some (b.board ⟨cell.1, h.1⟩ ⟨cell.2, h.2⟩)
  else
    none

/-- Embeds `SudokuBoard::set`. The source first evaluates
`self.initial_mask[r][c]`, which panics for any out-of-bounds index, so the
bounds test acts as a panic guard; the in-bounds path checks the mask and then
writes unconditionally via `get_mut` (which always succeeds in bounds, making
the source's final `Err("Error: Invalid move.")` unreachable). -/
def SudokuBoard.set (b : SudokuBoard) (cell : Nat × Nat) (num : Nat) : SetResult :=
  if h : cell.1 < 9 ∧ cell.2 < 9 then
    if b.initial_mask ⟨cell.1, h.1⟩ ⟨cell.2, h.2⟩ then
      SetResult.err "Error: Cannot modify a starting number." b
    else
      SetResult.ok ⟨updateCell b.board (⟨cell.1, h.1⟩, ⟨cell.2, h.2⟩) num, b.initial_mask⟩
  else
    SetResult.panic

/-- Embeds `SudokuBoard::validate_move`, preserving the source's check order:
digit range, bounds, given-mask, clearing, occupancy, then the column, row and
3×3 box duplicate scans (each `for` loop with early `return false` becomes an
existence test over the scanned indices). -/
def SudokuBoard.validate_move (b : SudokuBoard) (cell : Nat × Nat) (num : Nat) : Bool :=
  if 9 < num then false
  else if h : cell.1 < 9 ∧ cell.2 < 9 then
    if b.initial_mask ⟨cell.1, h.1⟩ ⟨cell.2, h.2⟩ then false
    else if num = 0 then true
    else if b.board ⟨cell.1, h.1⟩ ⟨cell.2, h.2⟩ ≠ 0 then false
    else if ∃ i : Fin 9, b.board i ⟨cell.2, h.2⟩ = num then false
    else if ∃ j : Fin 9, b.board ⟨cell.1, h.1⟩ j = num then false
    else if ∃ oi : Fin 3, ∃ oj : Fin 3,
        b.board ⟨cell.1 / 3 * 3 + oi.val, by have := oi.isLt; have := h.1; omega⟩
          ⟨cell.2 / 3 * 3 + oj.val, by have := oj.isLt; have := h.2; omega⟩ = num then false
    else true
  else false

/-- Modelled from the spec: `is_placement_valid` is called by
`BacktrackingSolver::recursive_solve` but is absent from `sudoku_board.rs`.
Spec §4.1: "pure predicate, no mutation ... returns false iff the digit
already appears in the cell's row, column, or block (excluding the cell
itself)". -/
def SudokuBoard.is_placement_valid (b : SudokuBoard) (cell : Fin 9 × Fin 9) (num : Nat) : Bool :=
  decide (∀ p : Fin 9 × Fin 9, p ≠ cell → sameUnit p cell → b.board p.1 p.2 ≠ num)

/-- Modelled from the spec: the internal unchecked mutation entry point
(`internal_place` in `sudoku_solver.rs`) is absent from `sudoku_board.rs`.
Spec §4.1: "unconditionally sets `grid[cell] = digit`, bypassing the
given-mask and occupancy checks". -/
def SudokuBoard.internal_place (b : SudokuBoard) (cell : Fin 9 × Fin 9) (num : Nat) : SudokuBoard :=
  ⟨updateCell b.board cell num, b.initial_mask⟩

/-- All 81 cells in row-major order, the scan order of
`BacktrackingSolver::find_first_empty_cell`. -/
def cells : List (Fin 9 × Fin 9) :=
  (List.finRange 9).flatMap (fun r => (List.finRange 9).map (fun c => (r, c)))

/-- Embeds `BacktrackingSolver::find_first_empty_cell`: the first cell, in
row-major order, whose `get` reads `Some(0)` (the indices scanned are always
in bounds, so `get` never returns `None` here). -/
def BacktrackingSolver.find_first_empty_cell (b : SudokuBoard) : Option (Fin 9 × Fin 9) :=
  cells.find? (fun p => b.get (p.1.val, p.2.val) == some 0)

/-- The candidate digits of the `for num in 1..=9` loop, in trial order. -/
def digits : List Nat := [1, 2, 3, 4, 5, 6, 7, 8, 9]

/-- Embeds the `for num in 1..=9` loop body of `recursive_solve`: try each
remaining candidate digit at `cell`; on a valid placement recurse (via
`recur`) on the board with the digit placed, propagating the first success.
The source's retraction `internal_place(empty_cell, 0)` after a failed
recursion restores the board to its entry state (the cell held 0), which the
persistent embedding renders by trying the next digit on the unchanged `b`. -/
def BacktrackingSolver.tryDigits (recur : SudokuBoard → Option SudokuBoard)
    (b : SudokuBoard) (cell : Fin 9 × Fin 9) : List Nat → Option SudokuBoard
  | [] => none
  | num :: rest =>
    if b.is_placement_valid cell num then
      match recur (b.internal_place cell num) with
      | some sol => some sol
      | none => BacktrackingSolver.tryDigits recur b cell rest
    else BacktrackingSolver.tryDigits recur b cell rest

/-- Embeds `BacktrackingSolver::recursive_solve`. The Rust recursion carries
no counter; the embedding adds a fuel argument consumed once per placement,
and `solve_fuel_mono` below shows any fuel at least the number of empty cells
gives the untruncated result, so the bound `81` in `run` is exact. Returning
`some s` corresponds to returning `true` with the board mutated to `s`;
`none` to returning `false` with the board restored. -/
def BacktrackingSolver.recursive_solve : Nat → SudokuBoard → Option SudokuBoard
  | 0, b =>
    match BacktrackingSolver.find_first_empty_cell b with
    | none => some b
    | some _ => none
  | fuel + 1, b =>
    match BacktrackingSolver.find_first_empty_cell b with
    | none => some b
    | some cell =>
      BacktrackingSolver.tryDigits (BacktrackingSolver.recursive_solve fuel) b cell digits

/-- Embeds `BacktrackingSolver::run`: solve a private copy of the input board,
returning `Some(board)` on success and `None` (`Unsolvable`) on exhaustion. -/
def BacktrackingSolver.run (init_board : SudokuBoard) : Option SudokuBoard :=
  BacktrackingSolver.recursive_solve 81 init_board

/-- The number of empty cells of a board (spec §4.2: the solver's recursion
depth bound). -/
def numEmpty (b : SudokuBoard) : Nat :=
  (cells.filter (fun p => b.board p.1 p.2 == 0)).length

/-- One validated public mutation: the repository's tests perform
`validate_move` then `set`; `playMove` succeeds exactly when the move passes
`validate_move` and `set` returns `Ok`. -/
def playMove (b : SudokuBoard) (m : (Nat × Nat) × Nat) : Option SudokuBoard :=
  if b.validate_move m.1 m.2 then
    match b.set m.1 m.2 with
    | SetResult.ok b' => some b'
    | _ => none
  else none

/-- A sequence of validated public mutations, applied left to right. -/
def playMoves (b : SudokuBoard) (ms : List ((Nat × Nat) × Nat)) : Option SudokuBoard :=
  ms.foldlM playMove b

/-- The all-empty grid. -/
def zeroGrid : Grid := fun _ _ => 0

/-- The board built from the all-empty grid. -/
def zeroBoard : SudokuBoard := ⟨zeroGrid, fun r c => zeroGrid r c != 0⟩

/-- The `valid_config()` puzzle of the repository's tests. -/
def testGrid : Grid := l2g
  [[0, 0, 6, 0, 4, 0, 0, 9, 7],
   [0, 4, 0, 7, 3, 0, 0, 1, 0],
   [0, 1, 7, 0, 9, 2, 0, 3, 0],
   [6, 0, 0, 0, 7, 0, 0, 8, 0],
   [1, 0, 5, 0, 6, 0, 9, 0, 3],
   [0, 2, 0, 0, 1, 0, 0, 0, 6],
   [0, 5, 0, 9, 8, 0, 1, 6, 0],
   [0, 9, 0, 0, 5, 6, 0, 7, 0],
   [8, 6, 0, 0, 2, 0, 3, 0, 0]]

/-- The board built from `testGrid`. -/
def testBoard : SudokuBoard := ⟨testGrid, fun r c => testGrid r c != 0⟩

/-- A complete valid grid (every row a cyclic shift), used as a solver input
whose search succeeds immediately. -/
def solvedGrid : Grid := l2g
  [[1, 2, 3, 4, 5, 6, 7, 8, 9],
   [4, 5, 6, 7, 8, 9, 1, 2, 3],
   [7, 8, 9, 1, 2, 3, 4, 5, 6],
   [2, 3, 4, 5, 6, 7, 8, 9, 1],
   [5, 6, 7, 8, 9, 1, 2, 3, 4],
   [8, 9, 1, 2, 3, 4, 5, 6, 7],
   [3, 4, 5, 6, 7, 8, 9, 1, 2],
   [6, 7, 8, 9, 1, 2, 3, 4, 5],
   [9, 1, 2, 3, 4, 5, 6, 7, 8]]

/-- The board built from `solvedGrid`. -/
def solvedBoard : SudokuBoard := ⟨solvedGrid, fun r c => solvedGrid r c != 0⟩

/-- A 9×9 input holding the out-of-range value 12 at `(0,0)` and zeros
elsewhere: the 12 duplicates nothing in its row, column or block. -/
def grid12 : Grid := l2g [[12]]

/-- `zeroBoard` after the successful call `set((0,0), 5)`. -/
def oneFiveBoard : SudokuBoard := ⟨l2g [[5]], fun r c => zeroGrid r c != 0⟩

/-- `oneFiveBoard` after the successful call `set((0,1), 5)`: two 5s in row 0. -/
def twoFivesBoard : SudokuBoard := ⟨l2g [[5, 5]], fun r c => zeroGrid r c != 0⟩

/-- `oneFiveBoard` after the successful overwriting call `set((0,0), 7)`. -/
def sevenBoard : SudokuBoard := ⟨l2g [[7]], fun r c => zeroGrid r c != 0⟩

/-! ### The seen-set scan decides pairwise distinctness of non-zero values -/

theorem lineOk_iff (l : List Nat) : ∀ seen : List Nat,
    lineOk seen l = true ↔
      ((∀ v ∈ l, v ≠ 0 → v ∉ seen) ∧ l.Pairwise fun a b => a ≠ 0 → a ≠ b) := by
  induction l with
  | nil => intro seen; simp [lineOk]
  | cons v rest ih =>
    intro seen
    rw [lineOk]
    split_ifs with h1 hv
    · simp only [Bool.false_eq_true, false_iff, not_and]
      intro hs _
      exact absurd h1.2 (hs v (List.mem_cons_self v rest) h1.1)
    · have hvseen : v ∉ seen := fun hm => h1 ⟨hv, hm⟩
      rw [ih (v :: seen)]
      constructor
      · rintro ⟨hseen, hpw⟩
        constructor
        · intro w hw hw0
          rcases List.mem_cons.mp hw with rfl | hw'
          · exact hvseen
          · intro hm
            exact hseen w hw' hw0 (List.mem_cons_of_mem v hm)
        · rw [List.pairwise_cons]
          refine ⟨?_, hpw⟩
          intro b hb _
          by_cases hb0 : b = 0
          · subst hb0; exact hv
          · intro heq
            exact hseen b hb hb0 (by rw [← heq]; exact List.mem_cons_self v seen)
      · rintro ⟨hseen, hpw⟩
        rw [List.pairwise_cons] at hpw
        obtain ⟨hhead, hpw'⟩ := hpw
        refine ⟨?_, hpw'⟩
        intro w hw hw0 hm
        rcases List.mem_cons.mp hm with rfl | hm'
        · exact hhead w hw hv rfl
        · exact hseen w (List.mem_cons_of_mem v hw) hw0 hm'
    · have hv0 : v = 0 := by
        by_contra h
        exact hv h
      subst hv0
      rw [ih seen]
      constructor
      · rintro ⟨hseen, hpw⟩
        constructor
        · intro w hw hw0
          rcases List.mem_cons.mp hw with rfl | hw'
          · exact absurd rfl hw0
          · exact hseen w hw' hw0
        · rw [List.pairwise_cons]
          exact ⟨fun b _ h0 => absurd rfl h0, hpw⟩
      · rintro ⟨hseen, hpw⟩
        rw [List.pairwise_cons] at hpw
        exact ⟨fun w hw => hseen w (List.mem_cons_of_mem 0 hw), hpw.2⟩

/-! ### Structural facts about the cell lists (settled by evaluation) -/

theorem mem_rowCells : ∀ (p : Fin 9 × Fin 9) (r : Fin 9), p ∈ rowCells r ↔ p.1 = r := by decide

theorem mem_colCells : ∀ (p : Fin 9 × Fin 9) (c : Fin 9), p ∈ colCells c ↔ p.2 = c := by decide

theorem mem_boxCells : ∀ (p : Fin 9 × Fin 9) (bi bj : Fin 3),
    p ∈ boxCells bi bj ↔ (p.1.val / 3 = bi.val ∧ p.2.val / 3 = bj.val) := by decide

theorem rowCells_nodup : ∀ r : Fin 9, (rowCells r).Nodup := by decide

theorem colCells_nodup : ∀ c : Fin 9, (colCells c).Nodup := by decide

theorem boxCells_nodup : ∀ bi bj : Fin 3, (boxCells bi bj).Nodup := by decide

theorem mem_cells : ∀ p : Fin 9 × Fin 9, p ∈ cells := by decide

theorem cells_nodup : cells.Nodup := by decide

/-- The symmetric "distinct unless one is empty" relation a scanned line
guarantees between its cells. -/
def symmDistinct (g : Grid) (p q : Fin 9 × Fin 9) : Prop :=
  g p.1 p.2 ≠ 0 → g q.1 q.2 ≠ 0 → g p.1 p.2 ≠ g q.1 q.2

theorem symmDistinct_symm (g : Grid) : Symmetric (symmDistinct g) :=
  fun _ _ h hq hp => Ne.symm (h hp hq)

theorem line_distinct {g : Grid} {cs : List (Fin 9 × Fin 9)}
    (h : lineOk [] (lineVals g cs) = true) :
    ∀ p ∈ cs, ∀ q ∈ cs, p ≠ q → symmDistinct g p q := by
  have hpw := ((lineOk_iff _ _).mp h).2
  rw [lineVals, List.pairwise_map] at hpw
  have hpw2 : cs.Pairwise (symmDistinct g) :=
    hpw.imp (fun hab hpa _ => hab hpa)
  intro p hp q hq hne
  exact hpw2.forall (symmDistinct_symm g) hp hq hne

theorem line_ok_of {g : Grid} {cs : List (Fin 9 × Fin 9)} (hnd : cs.Nodup)
    (h : ∀ p ∈ cs, ∀ q ∈ cs, p ≠ q → symmDistinct g p q) :
    lineOk [] (lineVals g cs) = true := by
  rw [lineOk_iff]
  refine ⟨by simp, ?_⟩
  rw [lineVals, List.pairwise_map]
  refine hnd.pairwise_of_forall_ne ?_
  intro p hp q hq hne hp0
  by_cases hq0 : g q.1 q.2 = 0
  · rw [hq0]; exact hp0
  · exact h p hp q hq hne hp0 hq0

/-- `is_valid_config` decides exactly invariant I2. -/
theorem is_valid_config_iff_I2 (g : Grid) : SudokuBoard.is_valid_config g = true ↔ I2 g := by
  rw [SudokuBoard.is_valid_config]
  simp only [Bool.and_eq_true, List.all_eq_true, List.mem_finRange, true_implies]
  constructor
  · rintro ⟨⟨hrows, hcols⟩, hboxes⟩ p q hne hunit hp hq
    rcases hunit with h | h | ⟨h1, h2⟩
    · exact line_distinct (hrows p.1) p ((mem_rowCells p p.1).mpr rfl) q
        ((mem_rowCells q p.1).mpr h.symm) hne hp hq
    · exact line_distinct (hcols p.2) p ((mem_colCells p p.2).mpr rfl) q
        ((mem_colCells q p.2).mpr h.symm) hne hp hq
    · have hb1 := p.1.isLt
      have hb2 := p.2.isLt
      refine line_distinct (hboxes ⟨p.1.val / 3, by omega⟩ ⟨p.2.val / 3, by omega⟩) p
        ((mem_boxCells p _ _).mpr ⟨rfl, rfl⟩) q
        ((mem_boxCells q _ _).mpr ⟨h1.symm, h2.symm⟩) hne hp hq
  · intro hI2
    refine ⟨⟨fun i => ?_, fun j => ?_⟩, fun bi bj => ?_⟩
    · refine line_ok_of (rowCells_nodup i) ?_
      intro p hp q hq hne hp0 hq0
      exact hI2 p q hne (Or.inl (((mem_rowCells p i).mp hp).trans
        ((mem_rowCells q i).mp hq).symm)) hp0 hq0
    · refine line_ok_of (colCells_nodup j) ?_
      intro p hp q hq hne hp0 hq0
      exact hI2 p q hne (Or.inr (Or.inl (((mem_colCells p j).mp hp).trans
        ((mem_colCells q j).mp hq).symm))) hp0 hq0
    · refine line_ok_of (boxCells_nodup bi bj) ?_
      intro p hp q hq hne hp0 hq0
      obtain ⟨hp1, hp2⟩ := (mem_boxCells p bi bj).mp hp
      obtain ⟨hq1, hq2⟩ := (mem_boxCells q bi bj).mp hq
      exact hI2 p q hne (Or.inr (Or.inr ⟨hp1.trans hq1.symm, hp2.trans hq2.symm⟩)) hp0 hq0

/-! ### Construction and `set` characterizations -/

theorem fromConfig_ok {config : Grid} {b : SudokuBoard}
    (h : SudokuBoard.fromConfig config = Except.ok b) :
    b.board = config ∧ b.initial_mask = (fun r c => config r c != 0) ∧ I2 config := by
  rw [SudokuBoard.fromConfig] at h
  split_ifs at h with hv
  · injection h with h'
    rw [← h']
    exact ⟨rfl, rfl, (is_valid_config_iff_I2 config).mp hv⟩

theorem set_inbounds_mask {b : SudokuBoard} {r c num : Nat} (hr : r < 9) (hc : c < 9)
    (hm : b.initial_mask ⟨r, hr⟩ ⟨c, hc⟩ = true) :
    b.set (r, c) num = SetResult.err "Error: Cannot modify a starting number." b := by
  rw [SudokuBoard.set, dif_pos ⟨hr, hc⟩, if_pos hm]

theorem set_inbounds_write {b : SudokuBoard} {r c num : Nat} (hr : r < 9) (hc : c < 9)
    (hm : b.initial_mask ⟨r, hr⟩ ⟨c, hc⟩ = false) :
    b.set (r, c) num =
      SetResult.ok ⟨updateCell b.board (⟨r, hr⟩, ⟨c, hc⟩) num, b.initial_mask⟩ := by
  rw [SudokuBoard.set, dif_pos ⟨hr, hc⟩, if_neg (by rw [hm]; exact Bool.false_ne_true)]

theorem set_oob {b : SudokuBoard} {cell : Nat × Nat} {num : Nat}
    (h : 9 ≤ cell.1 ∨ 9 ≤ cell.2) : b.set cell num = SetResult.panic := by
  rw [SudokuBoard.set, dif_neg]
  rintro ⟨h1, h2⟩
  rcases h with h | h
  · omega
  · omega

/-! ### `updateCell` pointwise behaviour -/

theorem updateCell_self (g : Grid) (cell : Fin 9 × Fin 9) (num : Nat) :
    updateCell g cell num cell.1 cell.2 = num := by
  simp [updateCell]

theorem updateCell_other (g : Grid) (cell : Fin 9 × Fin 9) (num : Nat)
    {q : Fin 9 × Fin 9} (h : q ≠ cell) :
    updateCell g cell num q.1 q.2 = g q.1 q.2 :=
  if_neg (fun he => h he)

theorem sameUnit_symm : ∀ p q : Fin 9 × Fin 9, sameUnit p q → sameUnit q p := by decide

/-- Writing `num` into a cell preserves I2 as long as `num`, when non-zero,
does not already occur in the cell's row, column or block. -/
theorem place_preserves_I2 {g : Grid} {cell : Fin 9 × Fin 9} {num : Nat}
    (hI : I2 g)
    (hnum : num ≠ 0 → ∀ p, p ≠ cell → sameUnit p cell → g p.1 p.2 ≠ num) :
    I2 (updateCell g cell num) := by
  intro p q hne hunit hp hq
  by_cases hpc : p = cell
  · subst hpc
    have hqc : q ≠ p := fun h => hne h.symm
    rw [updateCell_self] at hp ⊢
    rw [updateCell_other g p num hqc] at hq ⊢
    exact fun heq => hnum hp q hqc (sameUnit_symm p q hunit) heq.symm
  · by_cases hqc : q = cell
    · subst hqc
      rw [updateCell_other g q num hpc] at hp ⊢
      rw [updateCell_self] at hq ⊢
      exact hnum hq p hpc hunit
    · rw [updateCell_other g cell num hpc] at hp ⊢
      rw [updateCell_other g cell num hqc] at hq ⊢
      exact hI p q hne hunit hp hq

/-! ### `validate_move` characterizations -/

theorem validate_move_oob {b : SudokuBoard} {cell : Nat × Nat} {num : Nat}
    (h : 9 ≤ cell.1 ∨ 9 ≤ cell.2) : b.validate_move cell num = false := by
  rw [SudokuBoard.validate_move]
  by_cases h1 : 9 < num
  · rw [if_pos h1]
  · rw [if_neg h1, dif_neg]
    rintro ⟨hb1, hb2⟩
    rcases h with h | h
    · omega
    · omega

theorem validate_move_num_gt {b : SudokuBoard} {cell : Nat × Nat} {num : Nat}
    (h : 9 < num) : b.validate_move cell num = false := by
  rw [SudokuBoard.validate_move, if_pos h]

theorem validate_move_mask {b : SudokuBoard} {rf cf : Fin 9} {num : Nat}
    (hm : b.initial_mask rf cf = true) :
    b.validate_move (rf.val, cf.val) num = false := by
  rw [SudokuBoard.validate_move]
  by_cases h1 : 9 < num
  · rw [if_pos h1]
  · rw [if_neg h1, dif_pos ⟨rf.isLt, cf.isLt⟩]
    simp only [Fin.eta]
    rw [if_pos hm]

theorem validate_move_occupied {b : SudokuBoard} {rf cf : Fin 9} {num : Nat}
    (hocc : b.board rf cf ≠ 0) (hnum : num ≠ 0) :
    b.validate_move (rf.val, cf.val) num = false := by
  rw [SudokuBoard.validate_move]
  by_cases h1 : 9 < num
  · rw [if_pos h1]
  · rw [if_neg h1, dif_pos ⟨rf.isLt, cf.isLt⟩]
    simp only [Fin.eta]
    by_cases h3 : b.initial_mask rf cf = true
    · rw [if_pos h3]
    · rw [if_neg h3, if_neg hnum, if_pos hocc]

/-- What a successful `validate_move` guarantees: the cell is in bounds and
not a given, and the move is either a clear or a duplicate-free placement of
a digit 1..9 on an empty cell. -/
theorem validate_move_true_spec {b : SudokuBoard} {rf cf : Fin 9} {num : Nat}
    (h : b.validate_move (rf.val, cf.val) num = true) :
    b.initial_mask rf cf = false ∧
      (num = 0 ∨
        (num ≤ 9 ∧ b.board rf cf = 0 ∧
          ∀ p : Fin 9 × Fin 9, sameUnit p (rf, cf) → b.board p.1 p.2 ≠ num)) := by
  rw [SudokuBoard.validate_move] at h
  by_cases h1 : 9 < num
  · rw [if_pos h1] at h; cases h
  rw [if_neg h1, dif_pos ⟨rf.isLt, cf.isLt⟩] at h
  simp only [Fin.eta] at h
  by_cases h3 : b.initial_mask rf cf = true
  · rw [if_pos h3] at h; cases h
  rw [if_neg h3] at h
  have hmask : b.initial_mask rf cf = false := by
    revert h3
    cases b.initial_mask rf cf
    · intro _; rfl
    · intro h3; exact absurd rfl h3
  by_cases h4 : num = 0
  · exact ⟨hmask, Or.inl h4⟩
  rw [if_neg h4] at h
  by_cases h5 : b.board rf cf ≠ 0
  · rw [if_pos h5] at h; cases h
  rw [if_neg h5] at h
  push_neg at h5
  by_cases h6 : ∃ i : Fin 9, b.board i cf = num
  · rw [if_pos h6] at h; cases h
  rw [if_neg h6] at h
  by_cases h7 : ∃ j : Fin 9, b.board rf j = num
  · rw [if_pos h7] at h; cases h
  rw [if_neg h7] at h
  by_cases h8 : ∃ oi : Fin 3, ∃ oj : Fin 3,
      b.board ⟨rf.val / 3 * 3 + oi.val, by have := oi.isLt; have := rf.isLt; omega⟩
        ⟨cf.val / 3 * 3 + oj.val, by have := oj.isLt; have := cf.isLt; omega⟩ = num
  · exact absurd h (by rw [if_pos h8]; exact Bool.false_ne_true)
  refine ⟨hmask, Or.inr ⟨by omega, h5, ?_⟩⟩
  intro p hunit heq
  rcases hunit with hrow | hcol | ⟨hb1, hb2⟩
  · exact h7 ⟨p.2, by rw [← heq, hrow]⟩
  · exact h6 ⟨p.1, by rw [← heq, hcol]⟩
  · apply h8
    have hb1' : p.1.val / 3 = rf.val / 3 := hb1
    have hb2' : p.2.val / 3 = cf.val / 3 := hb2
    have hm1 := p.1.isLt
    have hm2 := p.2.isLt
    refine ⟨⟨p.1.val % 3, by omega⟩, ⟨p.2.val % 3, by omega⟩, ?_⟩
    have e1 : (⟨rf.val / 3 * 3 + p.1.val % 3, by omega⟩ : Fin 9) = p.1 :=
      Fin.ext (show rf.val / 3 * 3 + p.1.val % 3 = p.1.val by omega)
    have e2 : (⟨cf.val / 3 * 3 + p.2.val % 3, by omega⟩ : Fin 9) = p.2 :=
      Fin.ext (show cf.val / 3 * 3 + p.2.val % 3 = p.2.val by omega)
    calc b.board ⟨rf.val / 3 * 3 + p.1.val % 3, by omega⟩ ⟨cf.val / 3 * 3 + p.2.val % 3, by omega⟩
        = b.board p.1 p.2 := by rw [e1, e2]
      _ = num := heq

/-! ### Validated mutation sequences preserve I2 -/

theorem playMove_I2 {b b' : SudokuBoard} {m : (Nat × Nat) × Nat}
    (hI : I2 b.board) (h : playMove b m = some b') : I2 b'.board := by
  obtain ⟨⟨r, c⟩, num⟩ := m
  rw [playMove] at h
  by_cases hv : b.validate_move (r, c) num = true
  · rw [if_pos hv] at h
    have hr : r < 9 := by
      by_contra hr
      rw [validate_move_oob (Or.inl (by omega))] at hv
      cases hv
    have hc : c < 9 := by
      by_contra hc
      rw [validate_move_oob (Or.inr (by omega))] at hv
      cases hv
    obtain ⟨hmask, hrest⟩ := @validate_move_true_spec b ⟨r, hr⟩ ⟨c, hc⟩ num hv
    rw [set_inbounds_write hr hc hmask] at h
    injection h with h2
    rw [← h2]
    apply place_preserves_I2 hI
    intro hnum0 p hpc hunit
    rcases hrest with h0 | ⟨_, _, hscan⟩
    · exact absurd h0 hnum0
    · exact hscan p hunit
  · rw [if_neg hv] at h
    cases h

theorem playMoves_I2 {ms : List ((Nat × Nat) × Nat)} :
    ∀ {b b' : SudokuBoard}, I2 b.board → playMoves b ms = some b' → I2 b'.board := by
  induction ms with
  | nil =>
    intro b b' hI h
    rw [playMoves, List.foldlM_nil] at h
    injection h with h2
    rw [← h2]
    exact hI
  | cons m rest ih =>
    intro b b' hI h
    rw [playMoves, List.foldlM_cons] at h
    cases hm : playMove b m with
    | none =>
      rw [hm] at h
      cases h
    | some b1 =>
      rw [hm] at h
      exact ih (playMove_I2 hI hm) h

/-! ### Claims C1, C2, C3, C7, C8, C10 (board layer) -/

/-- C1, counterexample: from the all-empty board (a successful construction),
the two calls `set((0,0), 5)` and `set((0,1), 5)` both succeed, and the
resulting grid violates I2 (two 5s in row 0): `set` performs no uniqueness
validation, so the claim as stated is false. -/
theorem C1_counterexample :
    SudokuBoard.fromConfig zeroGrid = Except.ok zeroBoard ∧
    zeroBoard.set (0, 0) 5 = SetResult.ok oneFiveBoard ∧
    oneFiveBoard.set (0, 1) 5 = SetResult.ok twoFivesBoard ∧
    ¬ I2 twoFivesBoard.board :=
  ⟨rfl, by decide, by decide, by decide⟩

/-- C1, amended: for every board produced by successful construction and
every sequence of `set` calls each of which passes `validate_move` at call
time and succeeds, invariant I2 holds after every call. -/
theorem C1_theorem {config : Grid} {b b' : SudokuBoard} {ms : List ((Nat × Nat) × Nat)}
    (hb : SudokuBoard.fromConfig config = Except.ok b)
    (h : playMoves b ms = some b') : I2 b'.board := by
  obtain ⟨hboard, _, hI⟩ := fromConfig_ok hb
  exact playMoves_I2 (by rw [hboard]; exact hI) h

/-- C1, witness: the amended theorem applied to the all-empty board and the
single validated move `set((0,0), 5)`. -/
theorem C1_witness : I2 oneFiveBoard.board :=
  @C1_theorem zeroGrid zeroBoard oneFiveBoard [((0, 0), 5)] rfl (by decide)

/-- C2: `set` on an out-of-bounds cell panics (the source indexes
`initial_mask[r][c]` before any bounds check), instead of returning the
out-of-bounds error the claim requires; the code's own out-of-bounds `Err`
branch is unreachable. -/
theorem C2_theorem :
    zeroBoard.set (9, 0) 1 = SetResult.panic ∧
    testBoard.set (0, 20) 3 = SetResult.panic :=
  ⟨by decide, by decide⟩

/-- C3, counterexample: cell (0,0) of `oneFiveBoard` is occupied (value 5),
in bounds and not a given, yet `set((0,0), 7)` succeeds and silently
overwrites the 5 with a 7, contradicting the claimed `CellOccupied` failure. -/
theorem C3_counterexample :
    oneFiveBoard.board ⟨0, by omega⟩ ⟨0, by omega⟩ = 5 ∧
    oneFiveBoard.initial_mask ⟨0, by omega⟩ ⟨0, by omega⟩ = false ∧
    oneFiveBoard.set (0, 0) 7 = SetResult.ok sevenBoard ∧
    sevenBoard.board ⟨0, by omega⟩ ⟨0, by omega⟩ = 7 :=
  ⟨by decide, by decide, by decide, by decide⟩

/-- C3, amended: a non-zero placement onto an occupied, in-bounds, non-given
cell is rejected by `validate_move` (which performs the occupancy check), but
`set` itself checks nothing beyond the given-mask: it succeeds and silently
overwrites the stored value. -/
theorem C3_theorem {b : SudokuBoard} (rf cf : Fin 9) (num : Nat)
    (hmask : b.initial_mask rf cf = false)
    (hocc : b.board rf cf ≠ 0) (hnum : num ≠ 0) :
    b.validate_move (rf.val, cf.val) num = false ∧
    b.set (rf.val, cf.val) num =
      SetResult.ok ⟨updateCell b.board (rf, cf) num, b.initial_mask⟩ :=
  ⟨validate_move_occupied hocc hnum,
   @set_inbounds_write b rf.val cf.val num rf.isLt cf.isLt hmask⟩

/-- C3, witness: the amended theorem at `oneFiveBoard`, cell (0,0), digit 7. -/
theorem C3_witness :
    oneFiveBoard.validate_move (0, 0) 7 = false ∧
    oneFiveBoard.set (0, 0) 7 =
      SetResult.ok ⟨updateCell oneFiveBoard.board (⟨0, by omega⟩, ⟨0, by omega⟩) 7,
        oneFiveBoard.initial_mask⟩ :=
  C3_theorem ⟨0, by omega⟩ ⟨0, by omega⟩ 7 (by decide) (by decide) (by decide)

/-- C7: for every in-bounds given cell (non-zero in the construction input)
and every digit argument including 0, `set` returns the immutable-cell error
and leaves the board unchanged. -/
theorem C7_theorem {config : Grid} {b : SudokuBoard} (rf cf : Fin 9) (num : Nat)
    (hb : SudokuBoard.fromConfig config = Except.ok b)
    (hgiven : config rf cf ≠ 0) :
    b.set (rf.val, cf.val) num = SetResult.err "Error: Cannot modify a starting number." b := by
  obtain ⟨_, hmaskf, _⟩ := fromConfig_ok hb
  have hm : b.initial_mask rf cf = true := by
    rw [hmaskf]
    simpa using hgiven
  exact @set_inbounds_mask b rf.val cf.val num rf.isLt cf.isLt hm

/-- C7, witness: cell (0,2) of the repository's test puzzle holds the given
digit 6; `set((0,2), 5)` errors and returns the board unchanged, and so does
`set((0,2), 0)`. -/
theorem C7_witness :
    testBoard.set (0, 2) 5 = SetResult.err "Error: Cannot modify a starting number." testBoard ∧
    testBoard.set (0, 2) 0 = SetResult.err "Error: Cannot modify a starting number." testBoard :=
  ⟨@C7_theorem testGrid testBoard ⟨0, by omega⟩ ⟨2, by omega⟩ 5 rfl (by decide),
   @C7_theorem testGrid testBoard ⟨0, by omega⟩ ⟨2, by omega⟩ 0 rfl (by decide)⟩

/-- C8, counterexample: the input holding the out-of-range value 12 at (0,0)
and zeros elsewhere is accepted by construction, contradicting the claim that
out-of-range digits are rejected. -/
theorem C8_counterexample :
    grid12 ⟨0, by omega⟩ ⟨0, by omega⟩ = 12 ∧
    (SudokuBoard.fromConfig grid12).isOk = true :=
  ⟨by decide, by decide⟩

/-- C8, amended: construction succeeds exactly when no row, column or 3×3
block of the input contains a repeated non-zero value (invariant I2); the
digit range is never checked, so an out-of-range value that duplicates
nothing is accepted. -/
theorem C8_theorem (config : Grid) :
    (SudokuBoard.fromConfig config).isOk = true ↔ I2 config := by
  rw [SudokuBoard.fromConfig]
  by_cases hv : SudokuBoard.is_valid_config config = true
  · rw [if_pos hv]
    constructor
    · intro _
      exact (is_valid_config_iff_I2 config).mp hv
    · intro _
      rfl
  · rw [if_neg hv]
    constructor
    · intro h
      cases h
    · intro hI
      exact absurd ((is_valid_config_iff_I2 config).mpr hI) hv

/-- C10: `validate_move` is total (embedded as a total boolean function —
every array access is bounds-guarded in the source) and returns `false` for
out-of-bounds cells, for digits greater than 9, for given cells, and for
non-zero placements onto occupied cells, each independently of the grid's
contents (so before any row/column/block duplicate scan can matter). -/
theorem C10_theorem (b : SudokuBoard) (cell : Nat × Nat) (num : Nat) :
    (9 ≤ cell.1 ∨ 9 ≤ cell.2 → b.validate_move cell num = false) ∧
    (9 < num → b.validate_move cell num = false) ∧
    (∀ (hr : cell.1 < 9) (hc : cell.2 < 9),
      b.initial_mask ⟨cell.1, hr⟩ ⟨cell.2, hc⟩ = true → b.validate_move cell num = false) ∧
    (∀ (hr : cell.1 < 9) (hc : cell.2 < 9),
      b.board ⟨cell.1, hr⟩ ⟨cell.2, hc⟩ ≠ 0 → num ≠ 0 → b.validate_move cell num = false) := by
  refine ⟨validate_move_oob, validate_move_num_gt, ?_, ?_⟩
  · intro hr hc hm
    exact @validate_move_mask b ⟨cell.1, hr⟩ ⟨cell.2, hc⟩ num hm
  · intro hr hc hocc hnum
    exact @validate_move_occupied b ⟨cell.1, hr⟩ ⟨cell.2, hc⟩ num hocc hnum

/-- C10, witness: the four rejection cases evaluated on concrete boards. -/
theorem C10_witness :
    testBoard.validate_move (9, 0) 5 = false ∧
    testBoard.validate_move (0, 0) 12 = false ∧
    testBoard.validate_move (0, 2) 5 = false ∧
    oneFiveBoard.validate_move (0, 0) 7 = false :=
  ⟨(C10_theorem testBoard (9, 0) 5).1 (Or.inl (by decide)),
   (C10_theorem testBoard (0, 0) 12).2.1 (by decide),
   (C10_theorem testBoard (0, 2) 5).2.2.1 (by decide) (by decide) (by decide),
   (C10_theorem oneFiveBoard (0, 0) 7).2.2.2 (by decide) (by decide) (by decide) (by decide)⟩

/-! ### Solver: the empty-cell scan and the empty-cell count -/

theorem get_at_fin (b : SudokuBoard) (p : Fin 9 × Fin 9) :
    b.get (p.1.val, p.2.val) = some (b.board p.1 p.2) := by
  rw [SudokuBoard.get, dif_pos ⟨p.1.isLt, p.2.isLt⟩]

theorem find_first_eq (b : SudokuBoard) :
    BacktrackingSolver.find_first_empty_cell b
      = cells.find? (fun p => b.board p.1 p.2 == 0) := by
  rw [BacktrackingSolver.find_first_empty_cell]
  congr 1
  funext p
  rw [get_at_fin]
  rfl

theorem find_first_some {b : SudokuBoard} {cell : Fin 9 × Fin 9}
    (h : BacktrackingSolver.find_first_empty_cell b = some cell) :
    b.board cell.1 cell.2 = 0 := by
  rw [find_first_eq] at h
  simpa using List.find?_some h

theorem find_first_none_iff {b : SudokuBoard} :
    BacktrackingSolver.find_first_empty_cell b = none ↔ Complete b.board := by
  rw [find_first_eq, List.find?_eq_none]
  constructor
  · intro h r c
    simpa using h (r, c) (mem_cells (r, c))
  · intro hC p _
    simpa using hC p.1 p.2

theorem numEmpty_le_81 (b : SudokuBoard) : numEmpty b ≤ 81 :=
  le_trans (List.length_filter_le _ cells) (by decide)

theorem numEmpty_pos_of_some {b : SudokuBoard} {cell : Fin 9 × Fin 9}
    (h : BacktrackingSolver.find_first_empty_cell b = some cell) : 0 < numEmpty b := by
  have h0 : b.board cell.1 cell.2 = 0 := find_first_some h
  exact List.length_pos_of_mem (List.mem_filter.mpr ⟨mem_cells cell, by simpa using h0⟩)

theorem find_first_none_of_numEmpty_zero {b : SudokuBoard} (h : numEmpty b = 0) :
    BacktrackingSolver.find_first_empty_cell b = none := by
  rw [find_first_eq, List.find?_eq_none]
  intro p hp hpred
  have hmem : p ∈ cells.filter (fun p => b.board p.1 p.2 == 0) :=
    List.mem_filter.mpr ⟨hp, hpred⟩
  rw [List.length_eq_zero.mp h] at hmem
  cases hmem

/-- Flipping one point of a nodup list from counted to uncounted lowers the
count by exactly one. -/
theorem countP_flip {α : Type} (p q : α → Bool) :
    ∀ (l : List α), l.Nodup → ∀ a ∈ l, p a = true → q a = false →
      (∀ x ∈ l, x ≠ a → p x = q x) → l.countP q + 1 = l.countP p := by
  intro l
  induction l with
  | nil =>
    intro _ a ha
    cases ha
  | cons x xs ih =>
    intro hnd a ha hpa hqa hpq
    rw [List.nodup_cons] at hnd
    rcases List.mem_cons.mp ha with rfl | ha'
    · rw [List.countP_cons_of_pos _ _ hpa, List.countP_cons_of_neg _ _ (by rw [hqa]; exact Bool.false_ne_true)]
      have hcong : xs.countP p = xs.countP q := by
        apply List.countP_congr
        intro y hy
        rw [hpq y (List.mem_cons_of_mem _ hy) (fun he => hnd.1 (he ▸ hy))]
      omega
    · have hxa : x ≠ a := fun he => hnd.1 (he ▸ ha')
      have hpq_x : p x = q x := hpq x (List.mem_cons_self x xs) hxa
      have hrec := ih hnd.2 a ha' hpa hqa (fun y hy hya => hpq y (List.mem_cons_of_mem _ hy) hya)
      by_cases hpx : p x = true
      · rw [List.countP_cons_of_pos _ _ hpx, List.countP_cons_of_pos _ _ (by rw [← hpq_x]; exact hpx)]
        omega
      · rw [List.countP_cons_of_neg _ _ hpx, List.countP_cons_of_neg _ _ (by rw [← hpq_x]; exact hpx)]
        omega

theorem numEmpty_place {b : SudokuBoard} {cell : Fin 9 × Fin 9} {num : Nat}
    (h0 : b.board cell.1 cell.2 = 0) (hnum : num ≠ 0) :
    numEmpty (b.internal_place cell num) + 1 = numEmpty b := by
  rw [numEmpty, numEmpty, ← List.countP_eq_length_filter, ← List.countP_eq_length_filter]
  apply countP_flip _ _ cells cells_nodup cell (mem_cells cell)
  · simpa using h0
  · show ((b.internal_place cell num).board cell.1 cell.2 == 0) = false
    have : (b.internal_place cell num).board cell.1 cell.2 = num := updateCell_self b.board cell num
    rw [this]
    simpa using hnum
  · intro x _ hxc
    show (b.board x.1 x.2 == 0) = ((b.internal_place cell num).board x.1 x.2 == 0)
    rw [show (b.internal_place cell num).board x.1 x.2 = b.board x.1 x.2 from
      @updateCell_other b.board cell num x hxc]

/-! ### Solver: the digit-trial loop -/

theorem mem_digits {d : Nat} (h : d ∈ digits) : 1 ≤ d ∧ d ≤ 9 := by
  simp only [digits, List.mem_cons, List.not_mem_nil, or_false] at h
  rcases h with rfl | rfl | rfl | rfl | rfl | rfl | rfl | rfl | rfl <;> omega

theorem mem_digits_of {d : Nat} (h1 : 1 ≤ d) (h2 : d ≤ 9) : d ∈ digits := by
  interval_cases d <;> decide

theorem tryDigits_some {recur : SudokuBoard → Option SudokuBoard} {b : SudokuBoard}
    {cell : Fin 9 × Fin 9} {s : SudokuBoard} :
    ∀ {l : List Nat}, BacktrackingSolver.tryDigits recur b cell l = some s →
      ∃ d ∈ l, b.is_placement_valid cell d = true ∧
        recur (b.internal_place cell d) = some s := by
  intro l
  induction l with
  | nil =>
    intro h
    cases h
  | cons d rest ih =>
    intro h
    rw [BacktrackingSolver.tryDigits] at h
    by_cases hv : b.is_placement_valid cell d = true
    · rw [if_pos hv] at h
      cases hr : recur (b.internal_place cell d) with
      | some sol =>
        rw [hr] at h
        injection h with h2
        exact ⟨d, List.mem_cons_self d rest, hv, by rw [hr, h2]⟩
      | none =>
        rw [hr] at h
        obtain ⟨d2, hd2, hv2, hr2⟩ := ih h
        exact ⟨d2, List.mem_cons_of_mem _ hd2, hv2, hr2⟩
    · rw [if_neg hv] at h
      obtain ⟨d2, hd2, hv2, hr2⟩ := ih h
      exact ⟨d2, List.mem_cons_of_mem _ hd2, hv2, hr2⟩

theorem tryDigits_isSome_of {recur : SudokuBoard → Option SudokuBoard} {b : SudokuBoard}
    {cell : Fin 9 × Fin 9} {d : Nat} {s2 : SudokuBoard} :
    ∀ {l : List Nat}, d ∈ l → b.is_placement_valid cell d = true →
      recur (b.internal_place cell d) = some s2 →
      BacktrackingSolver.tryDigits recur b cell l ≠ none := by
  intro l
  induction l with
  | nil =>
    intro hmem
    cases hmem
  | cons e rest ih =>
    intro hmem hvd hrd hnone
    rw [BacktrackingSolver.tryDigits] at hnone
    rcases List.mem_cons.mp hmem with rfl | hmem'
    · rw [if_pos hvd, hrd] at hnone
      cases hnone
    · by_cases hve : b.is_placement_valid cell e = true
      · rw [if_pos hve] at hnone
        cases hre : recur (b.internal_place cell e) with
        | some sol =>
          rw [hre] at hnone
          cases hnone
        | none =>
          rw [hre] at hnone
          exact ih hmem' hvd hrd hnone
      · rw [if_neg hve] at hnone
        exact ih hmem' hvd hrd hnone

theorem tryDigits_congr {recur1 recur2 : SudokuBoard → Option SudokuBoard} {b : SudokuBoard}
    {cell : Fin 9 × Fin 9} :
    ∀ {l : List Nat},
      (∀ d ∈ l, b.is_placement_valid cell d = true →
        recur1 (b.internal_place cell d) = recur2 (b.internal_place cell d)) →
      BacktrackingSolver.tryDigits recur1 b cell l
        = BacktrackingSolver.tryDigits recur2 b cell l := by
  intro l
  induction l with
  | nil =>
    intro _
    rfl
  | cons d rest ih =>
    intro h
    rw [BacktrackingSolver.tryDigits, BacktrackingSolver.tryDigits]
    by_cases hv : b.is_placement_valid cell d = true
    · rw [if_pos hv, if_pos hv, h d (List.mem_cons_self d rest) hv]
      cases hr2 : recur2 (b.internal_place cell d) with
      | some sol => rfl
      | none => exact ih (fun d2 hd2 hv2 => h d2 (List.mem_cons_of_mem _ hd2) hv2)
    · rw [if_neg hv, if_neg hv]
      exact ih (fun d2 hd2 hv2 => h d2 (List.mem_cons_of_mem _ hd2) hv2)

/-! ### Solver: soundness, completeness and fuel-independence -/

theorem recursive_solve_complete_board {b : SudokuBoard}
    (h : BacktrackingSolver.find_first_empty_cell b = none) :
    ∀ fuel, BacktrackingSolver.recursive_solve fuel b = some b := by
  intro fuel
  cases fuel with
  | zero => rw [BacktrackingSolver.recursive_solve, h]
  | succ f => rw [BacktrackingSolver.recursive_solve, h]

theorem recursive_solve_sound :
    ∀ (fuel : Nat) {b s : SudokuBoard},
      BacktrackingSolver.recursive_solve fuel b = some s →
      Extends b.board s.board ∧ Complete s.board ∧
        (∀ r c, b.board r c = 0 → 1 ≤ s.board r c ∧ s.board r c ≤ 9) ∧
        (I2 b.board → I2 s.board) := by
  intro fuel
  induction fuel with
  | zero =>
    intro b s h
    rw [BacktrackingSolver.recursive_solve] at h
    cases hf : BacktrackingSolver.find_first_empty_cell b with
    | none =>
      rw [hf] at h
      injection h with h2
      subst h2
      have hcomp := find_first_none_iff.mp hf
      exact ⟨fun r c _ => rfl, hcomp, fun r c h0 => absurd h0 (hcomp r c), fun hI => hI⟩
    | some cell =>
      rw [hf] at h
      cases h
  | succ f ih =>
    intro b s h
    rw [BacktrackingSolver.recursive_solve] at h
    cases hf : BacktrackingSolver.find_first_empty_cell b with
    | none =>
      rw [hf] at h
      injection h with h2
      subst h2
      have hcomp := find_first_none_iff.mp hf
      exact ⟨fun r c _ => rfl, hcomp, fun r c h0 => absurd h0 (hcomp r c), fun hI => hI⟩
    | some cell =>
      rw [hf] at h
      obtain ⟨d, hd, hv, hr⟩ := tryDigits_some h
      have h0 : b.board cell.1 cell.2 = 0 := find_first_some hf
      obtain ⟨hd1, hd9⟩ := mem_digits hd
      obtain ⟨hext, hcomp, hrange, hI2f⟩ := ih hr
      have hplace_other : ∀ (x : Fin 9 × Fin 9), x ≠ cell →
          (b.internal_place cell d).board x.1 x.2 = b.board x.1 x.2 :=
        fun x hx => @updateCell_other b.board cell d x hx
      have hplace_self : (b.internal_place cell d).board cell.1 cell.2 = d :=
        updateCell_self b.board cell d
      refine ⟨?_, hcomp, ?_, ?_⟩
      · intro r c hrc
        have hne : ((r, c) : Fin 9 × Fin 9) ≠ cell := by
          intro he
          apply hrc
          rw [show r = cell.1 from congrArg Prod.fst he, show c = cell.2 from congrArg Prod.snd he]
          exact h0
        have hb2 := hplace_other (r, c) hne
        have := hext r c (by rw [hb2]; exact hrc)
        rw [this, hb2]
      · intro r c hrc
        by_cases he : ((r, c) : Fin 9 × Fin 9) = cell
        · have hr1 : r = cell.1 := congrArg Prod.fst he
          have hc1 : c = cell.2 := congrArg Prod.snd he
          have hsv : s.board r c = d := by
            rw [hr1, hc1]
            rw [hext cell.1 cell.2 (by rw [hplace_self]; omega), hplace_self]
          rw [hsv]
          omega
        · have hb2 := hplace_other (r, c) he
          exact hrange r c (by rw [hb2]; exact hrc)
      · intro hI
        apply hI2f
        exact place_preserves_I2 hI (fun _ => of_decide_eq_true hv)

theorem recursive_solve_fuel_mono :
    ∀ (f1 : Nat) {b : SudokuBoard} (f2 : Nat), numEmpty b ≤ f1 → numEmpty b ≤ f2 →
      BacktrackingSolver.recursive_solve f1 b = BacktrackingSolver.recursive_solve f2 b := by
  intro f1
  induction f1 with
  | zero =>
    intro b f2 h1 _
    have hnone := find_first_none_of_numEmpty_zero (Nat.le_zero.mp h1)
    exact (recursive_solve_complete_board hnone 0).trans
      (recursive_solve_complete_board hnone f2).symm
  | succ f ihf =>
    intro b f2 h1 h2
    cases hf : BacktrackingSolver.find_first_empty_cell b with
    | none =>
      exact (recursive_solve_complete_board hf (f + 1)).trans
        (recursive_solve_complete_board hf f2).symm
    | some cell =>
      have hpos : 0 < numEmpty b := numEmpty_pos_of_some hf
      cases f2 with
      | zero => omega
      | succ f2b =>
        rw [show BacktrackingSolver.recursive_solve (f + 1) b
            = BacktrackingSolver.tryDigits (BacktrackingSolver.recursive_solve f) b cell digits from
          by rw [BacktrackingSolver.recursive_solve, hf]]
        rw [show BacktrackingSolver.recursive_solve (f2b + 1) b
            = BacktrackingSolver.tryDigits (BacktrackingSolver.recursive_solve f2b) b cell digits from
          by rw [BacktrackingSolver.recursive_solve, hf]]
        apply tryDigits_congr
        intro d hd _
        have h0 : b.board cell.1 cell.2 = 0 := find_first_some hf
        obtain ⟨hd1, _⟩ := mem_digits hd
        have hdec : numEmpty (b.internal_place cell d) + 1 = numEmpty b :=
          numEmpty_place h0 (by omega)
        exact ihf _ (by omega) (by omega)

theorem recursive_solve_complete :
    ∀ (fuel : Nat) {b : SudokuBoard}, numEmpty b ≤ fuel →
      (∃ g : Grid, Completion b.board g ∧ I2 g) →
      BacktrackingSolver.recursive_solve fuel b ≠ none := by
  intro fuel
  induction fuel with
  | zero =>
    intro b hle _
    rw [recursive_solve_complete_board (find_first_none_of_numEmpty_zero (Nat.le_zero.mp hle)) 0]
    exact Option.some_ne_none b
  | succ f ih =>
    rintro b hle ⟨g, ⟨hext, hfill⟩, hI2g⟩
    cases hf : BacktrackingSolver.find_first_empty_cell b with
    | none =>
      rw [recursive_solve_complete_board hf (f + 1)]
      exact Option.some_ne_none b
    | some cell =>
      rw [show BacktrackingSolver.recursive_solve (f + 1) b
          = BacktrackingSolver.tryDigits (BacktrackingSolver.recursive_solve f) b cell digits from
        by rw [BacktrackingSolver.recursive_solve, hf]]
      have h0 : b.board cell.1 cell.2 = 0 := find_first_some hf
      obtain ⟨hd1, hd9⟩ := hfill cell.1 cell.2 h0
      have hgc0 : g cell.1 cell.2 ≠ 0 := by omega
      have hvalid : b.is_placement_valid cell (g cell.1 cell.2) = true := by
        apply decide_eq_true
        intro p hpne hunit heq
        have hbp0 : b.board p.1 p.2 ≠ 0 := by rw [heq]; omega
        have hgp : g p.1 p.2 = b.board p.1 p.2 := hext p.1 p.2 hbp0
        exact hI2g p cell hpne hunit (by rw [hgp]; exact hbp0) hgc0 (by rw [hgp, heq])
      have hplace_self : (b.internal_place cell (g cell.1 cell.2)).board cell.1 cell.2
          = g cell.1 cell.2 := updateCell_self b.board cell _
      have hdec : numEmpty (b.internal_place cell (g cell.1 cell.2)) + 1 = numEmpty b :=
        numEmpty_place h0 hgc0
      have hcmpl2 : Completion (b.internal_place cell (g cell.1 cell.2)).board g := by
        constructor
        · intro r c hrc
          by_cases he : ((r, c) : Fin 9 × Fin 9) = cell
          · rw [show r = cell.1 from congrArg Prod.fst he,
              show c = cell.2 from congrArg Prod.snd he, hplace_self]
          · have hb2 : (b.internal_place cell (g cell.1 cell.2)).board r c = b.board r c :=
              @updateCell_other b.board cell (g cell.1 cell.2) (r, c) he
            rw [hb2] at hrc ⊢
            exact hext r c hrc
        · intro r c hrc
          by_cases he : ((r, c) : Fin 9 × Fin 9) = cell
          · exfalso
            rw [show r = cell.1 from congrArg Prod.fst he,
              show c = cell.2 from congrArg Prod.snd he, hplace_self] at hrc
            omega
          · have hb2 : (b.internal_place cell (g cell.1 cell.2)).board r c = b.board r c :=
              @updateCell_other b.board cell (g cell.1 cell.2) (r, c) he
            rw [hb2] at hrc
            exact hfill r c hrc
      have hrec := ih (by omega) ⟨g, hcmpl2, hI2g⟩
      cases hsol : BacktrackingSolver.recursive_solve f (b.internal_place cell (g cell.1 cell.2)) with
      | none => exact absurd hsol hrec
      | some s2 => exact tryDigits_isSome_of (mem_digits_of hd1 hd9) hvalid hsol

/-! ### Claims C4, C5, C6, C9 (solver layer) -/

/-- C4: for every validly constructed input board, any board the solver
returns is complete (no zero cells) and satisfies I2. Relies on
`is_placement_valid`/`internal_place` modelled from the spec (absent from
`src/sudoku_board.rs`). -/
theorem C4_theorem {config : Grid} {b s : SudokuBoard}
    (hb : SudokuBoard.fromConfig config = Except.ok b)
    (hs : BacktrackingSolver.run b = some s) :
    Complete s.board ∧ I2 s.board := by
  obtain ⟨hboard, _, hI⟩ := fromConfig_ok hb
  obtain ⟨_, hcomp, _, hI2⟩ := recursive_solve_sound 81 hs
  refine ⟨hcomp, hI2 ?_⟩
  rw [hboard]
  exact hI

/-- C4, witness: on the already-complete valid board the solver returns the
board itself, which is complete and satisfies I2. -/
theorem C4_witness : Complete solvedBoard.board ∧ I2 solvedBoard.board :=
  @C4_theorem solvedGrid solvedBoard solvedBoard rfl rfl

/-- C5: for every validly constructed input board, the solver returns `None`
(`Unsolvable`) iff no assignment of digits 1..9 to the initially empty cells
yields a grid satisfying I2. Relies on `is_placement_valid`/`internal_place`
modelled from the spec. -/
theorem C5_theorem {config : Grid} {b : SudokuBoard}
    (hb : SudokuBoard.fromConfig config = Except.ok b) :
    (BacktrackingSolver.run b = none ↔ ¬ ∃ g : Grid, Completion b.board g ∧ I2 g) := by
  obtain ⟨hboard, _, hI⟩ := fromConfig_ok hb
  constructor
  · intro hnone hex
    exact recursive_solve_complete 81 (numEmpty_le_81 b) hex hnone
  · intro hnex
    cases hs : BacktrackingSolver.run b with
    | none => rfl
    | some s =>
      exfalso
      obtain ⟨hext, _, hrange, hI2f⟩ := recursive_solve_sound 81 hs
      exact hnex ⟨s.board, ⟨hext, hrange⟩, hI2f (by rw [hboard]; exact hI)⟩

/-- C5, witness: the iff instantiated at the repository's test puzzle. -/
theorem C5_witness :
    (BacktrackingSolver.run testBoard = none ↔
      ¬ ∃ g : Grid, Completion testBoard.board g ∧ I2 g) :=
  @C5_theorem testGrid testBoard rfl

/-- C6: the solver's search terminates with recursion depth bounded by the
number of empty cells: in the fuel-indexed embedding, any fuel of at least
`numEmpty b` (which never exceeds 81) gives the same result as fuel
`numEmpty b` itself, so the recursion never needs more than one level per
empty cell. Relies on `is_placement_valid`/`internal_place` modelled from
the spec. -/
theorem C6_theorem (b : SudokuBoard) (fuel : Nat) (h : numEmpty b ≤ fuel) :
    BacktrackingSolver.recursive_solve fuel b
      = BacktrackingSolver.recursive_solve (numEmpty b) b ∧
    numEmpty b ≤ 81 :=
  ⟨recursive_solve_fuel_mono fuel (numEmpty b) h (Nat.le_refl _), numEmpty_le_81 b⟩

/-- C6, witness: the bound instantiated at the repository's test puzzle with
the `run` fuel 81. -/
theorem C6_witness :
    BacktrackingSolver.recursive_solve 81 testBoard
      = BacktrackingSolver.recursive_solve (numEmpty testBoard) testBoard ∧
    numEmpty testBoard ≤ 81 :=
  C6_theorem testBoard 81 (by decide)

/-- C9: whenever the solver returns a board, every cell that was non-zero in
the input keeps its value: the solution extends the input (the search only
writes to cells found empty). Relies on `is_placement_valid`/`internal_place`
modelled from the spec. -/
theorem C9_theorem {b s : SudokuBoard} (hs : BacktrackingSolver.run b = some s) :
    Extends b.board s.board :=
  (recursive_solve_sound 81 hs).1

/-- C9, witness: on the complete valid board the solver returns the board
itself, which extends it. -/
theorem C9_witness : Extends solvedBoard.board solvedBoard.board :=
  @C9_theorem solvedBoard solvedBoard rfl
